import Mathlib

/-!
# Verification of `keras_mixed_sequence/utils/vector_sequence.py`

Shallow embedding of the `VectorSequence` class and proofs of the
specified properties.  The dataset vector is modelled as a `List α`,
the numpy shuffle as a deterministic Fisher–Yates-style draw from a
seeded linear congruential stream, and Python slicing with its exact
clamping semantics (including negative indices).
-/

namespace VectorSeq

/-- One step of a 64-bit linear congruential generator.  This models the
deterministic seed-keyed pseudo-random stream of `numpy.random.RandomState`
(an external library; only determinism and seed-dependence matter here). -/
def lcgStep (s : Nat) : Nat :=
  (6364136223846793005 * s + 1442695040888963407) % (2 ^ 64)

/-- Model of `state.shuffle(indices)` from numpy: repeatedly draw a position
from the pseudo-random stream and move the element at that position to the
front of the output.  `fuel` bounds the recursion (it is instantiated with
the length of the list, but the permutation property holds for any fuel). -/
def shuffleAux : Nat → Nat → List Nat → List Nat
  | _, _, [] => []
  | 0, _, xs => xs
  | fuel + 1, g, xs =>
    let g' := lcgStep g
    let j := g' % xs.length
    let a := xs.getD j 0
    a :: shuffleAux fuel g' (xs.erase a)

/-- `indices = np.arange(n); state.shuffle(indices)` with
`state = np.random.RandomState(seed)`: a deterministic permutation of
`[0, n)` keyed by `seed`. -/
def shuffleIndices (seed n : Nat) : List Nat :=
  shuffleAux n (lcgStep seed) (List.range n)

/-- Numpy fancy indexing `vector[indices]`: pick out the elements of
`xs` at the given positions (positions are always in range when the
index list is a permutation of `[0, xs.length)`). -/
def fancyIndex (xs : List α) (indices : List Nat) : List α :=
  indices.filterMap (fun i => xs[i]?)

/-- Normalize one bound of a Python slice `xs[a:b]` over a list of length
`n`: negative bounds count from the end and everything is clamped to
`[0, n]`. -/
def pySliceBound (n : Nat) (i : Int) : Nat :=
  if i < 0 then ((n : Int) + i).toNat else min i.toNat n

/-- Python slice `xs[a : b]` with exact clamping semantics. -/
def pySlice (xs : List α) (a b : Int) : List α :=
  (xs.take (pySliceBound xs.length b)).drop (pySliceBound xs.length a)

/-- State of a `VectorSequence` object: the base `Sequence` fields
(`batch_size`, `elapsed_epochs`, modelled from the spec since the base
class source is external) together with the fields set in
`VectorSequence.__init__` (`_seed`, `_vector`, `_shuffled`). -/
structure VectorSequence (α : Type) where
  batch_size : Nat
  elapsed_epochs : Nat
  seed : Nat
  vector : List α
  shuffled : List α
  deriving Repr, DecidableEq

namespace VectorSequence

/-- Modelled from the spec: the base `Sequence` interface stores
`samples_number = len(vector)` at construction; since the vector is never
reassigned it always equals the current vector's length. -/
def samples_number (s : VectorSequence α) : Nat := s.vector.length

/-- Modelled from the spec: the base `Sequence` interface computes
`steps_per_epoch = ceil(N / B)`. -/
def steps_per_epoch (s : VectorSequence α) : Nat :=
  (s.samples_number + s.batch_size - 1) / s.batch_size

/-- `VectorSequence.__init__`: store the seed and the vector, and set the
shuffled view to an (unshuffled) copy of the vector.  The base constructor
(modelled from the spec) records the batch size and the elapsed-epoch
count. -/
def init (vector : List α) (batch_size seed elapsed_epochs : Nat) :
    VectorSequence α :=
  { batch_size := batch_size
    elapsed_epochs := elapsed_epochs
    seed := seed
    vector := vector
    shuffled := vector }

/-- `VectorSequence.on_epoch_end`: first delegate to the base class,
which (modelled from the spec) increments `elapsed_epochs`; then reseed a
generator with `seed + elapsed_epochs` (post-increment), shuffle the index
range `[0, N)` and replace the shuffled view with `vector[indices]`. -/
def on_epoch_end (s : VectorSequence α) : VectorSequence α :=
  let e := s.elapsed_epochs + 1
  let indices := shuffleIndices (s.seed + e) s.samples_number
  { s with elapsed_epochs := e, shuffled := fancyIndex s.vector indices }

/-- `VectorSequence.__getitem__`, translated with explicit state passing:
raise a `ValueError` carrying the offending index and `steps_per_epoch`
when `idx >= steps_per_epoch`, otherwise return the Python slice
`shuffled[idx * batch_size : (idx + 1) * batch_size]`.  No field is
assigned, so the state component of the result is the input state. -/
def getitem (s : VectorSequence α) (idx : Int) :
    Except (Int × Nat) (List α) × VectorSequence α :=
  if (s.steps_per_epoch : Int) ≤ idx then
    (Except.error (idx, s.steps_per_epoch), s)
  else
    (Except.ok
      (pySlice s.shuffled (idx * s.batch_size) ((idx + 1) * s.batch_size)),
     s)

/-- The value returned by `__getitem__`. -/
def getBatch (s : VectorSequence α) (idx : Int) :
    Except (Int × Nat) (List α) :=
  (s.getitem idx).1

/-- `k` successive `on_epoch_end()` calls. -/
def runEpochs (s : VectorSequence α) : Nat → VectorSequence α
  | 0 => s
  | k + 1 => (s.runEpochs k).on_epoch_end

/-- The batch at a (natural) index, defaulting to `[]` on the error
branch; used to state the coverage property over all valid indices. -/
def batchOrEmpty (s : VectorSequence α) (idx : Nat) : List α :=
  match s.getBatch idx with
  | Except.ok b => b
  | Except.error _ => []

end VectorSequence

/-! ## Permutation lemmas for the shuffle model -/

theorem shuffleAux_perm (fuel : Nat) :
    ∀ (g : Nat) (xs : List Nat), (shuffleAux fuel g xs).Perm xs := by
  induction fuel with
  | zero =>
    intro g xs
    cases xs <;> simp [shuffleAux]
  | succ fuel ih =>
    intro g xs
    cases xs with
    | nil => simp [shuffleAux]
    | cons x t =>
      simp only [shuffleAux]
      have hj : lcgStep g % (x :: t).length < (x :: t).length :=
        Nat.mod_lt _ (by simp)
      have ha : (x :: t).getD (lcgStep g % (x :: t).length) 0 ∈ (x :: t) := by
        rw [List.getD_eq_getElem _ _ hj]
        exact List.getElem_mem hj
      exact ((ih _ _).cons _).trans (List.perm_cons_erase ha).symm

theorem shuffleIndices_perm (seed n : Nat) :
    (shuffleIndices seed n).Perm (List.range n) :=
  shuffleAux_perm n (lcgStep seed) (List.range n)

theorem filterMap_getElem_range (xs : List α) :
    (List.range xs.length).filterMap (fun i => xs[i]?) = xs := by
  induction xs with
  | nil => simp
  | cons x t ih =>
    rw [List.length_cons, List.range_succ_eq_map, List.filterMap_cons]
    simp only [List.getElem?_cons_zero, List.filterMap_map]
    have hfun : ((fun i => (x :: t)[i]?) ∘ Nat.succ) = fun i => t[i]? := by
      funext i
      simp [Function.comp]
    rw [hfun, ih]

theorem fancyIndex_perm (xs : List α) (indices : List Nat)
    (h : indices.Perm (List.range xs.length)) :
    (fancyIndex xs indices).Perm xs := by
  have h2 := h.filterMap (fun i => xs[i]?)
  rw [filterMap_getElem_range] at h2
  exact h2

/-! ## Invariants of `on_epoch_end` and `runEpochs` -/

namespace VectorSequence

theorem on_epoch_end_shuffled (s : VectorSequence α) :
    s.on_epoch_end.shuffled =
      fancyIndex s.vector
        (shuffleIndices (s.seed + (s.elapsed_epochs + 1)) s.vector.length) :=
  rfl

theorem runEpochs_vector (s : VectorSequence α) (k : Nat) :
    (s.runEpochs k).vector = s.vector := by
  induction k with
  | zero => rfl
  | succ j ih => simp [runEpochs, on_epoch_end, ih]

theorem runEpochs_seed (s : VectorSequence α) (k : Nat) :
    (s.runEpochs k).seed = s.seed := by
  induction k with
  | zero => rfl
  | succ j ih => simp [runEpochs, on_epoch_end, ih]

theorem runEpochs_batch_size (s : VectorSequence α) (k : Nat) :
    (s.runEpochs k).batch_size = s.batch_size := by
  induction k with
  | zero => rfl
  | succ j ih => simp [runEpochs, on_epoch_end, ih]

theorem runEpochs_elapsed (s : VectorSequence α) (k : Nat) :
    (s.runEpochs k).elapsed_epochs = s.elapsed_epochs + k := by
  induction k with
  | zero => rfl
  | succ j ih => simp [runEpochs, on_epoch_end, ih]; omega

theorem runEpochs_shuffled (s : VectorSequence α) (k : Nat) (hk : 1 ≤ k) :
    (s.runEpochs k).shuffled =
      fancyIndex s.vector
        (shuffleIndices (s.seed + s.elapsed_epochs + k) s.vector.length) := by
  cases k with
  | zero => omega
  | succ j =>
    show ((s.runEpochs j).on_epoch_end).shuffled = _
    rw [on_epoch_end_shuffled, runEpochs_vector, runEpochs_seed, runEpochs_elapsed]
    rw [show s.seed + (s.elapsed_epochs + j + 1) =
          s.seed + s.elapsed_epochs + (j + 1) from by omega]

end VectorSequence

/-! ## Slice lemmas for `__getitem__` -/

theorem pySliceBound_natCast (n m : Nat) :
    pySliceBound n (m : Int) = min m n := by
  simp [pySliceBound]

namespace VectorSequence

theorem mul_lt_of_lt_steps (s : VectorSequence α) (idx : Nat)
    (hB : 0 < s.batch_size) (h : idx < s.steps_per_epoch) :
    idx * s.batch_size < s.samples_number := by
  have h2 : (idx + 1) * s.batch_size ≤
      s.samples_number + s.batch_size - 1 :=
    (Nat.le_div_iff_mul_le hB).mp h
  have h3 : (idx + 1) * s.batch_size = idx * s.batch_size + s.batch_size := by
    ring
  omega

theorem getBatch_valid (s : VectorSequence α) (idx : Nat)
    (hB : 0 < s.batch_size)
    (hlen : s.shuffled.length = s.samples_number)
    (h : idx < s.steps_per_epoch) :
    s.getBatch idx =
      Except.ok
        ((s.shuffled.take
            (min ((idx + 1) * s.batch_size) s.samples_number)).drop
          (idx * s.batch_size)) := by
  have hlt : idx * s.batch_size < s.samples_number :=
    mul_lt_of_lt_steps s idx hB h
  show (s.getitem idx).1 = _
  rw [VectorSequence.getitem, if_neg (by exact_mod_cast Nat.not_le.mpr h)]
  show Except.ok
      (pySlice s.shuffled ((idx : Int) * (s.batch_size : Int))
        (((idx : Int) + 1) * (s.batch_size : Int))) = _
  congr 1
  rw [show ((idx : Int) * (s.batch_size : Int)) =
        ((idx * s.batch_size : Nat) : Int) from by push_cast; ring,
      show (((idx : Int) + 1) * (s.batch_size : Int)) =
        (((idx + 1) * s.batch_size : Nat) : Int) from by push_cast; ring]
  rw [pySlice, pySliceBound_natCast, pySliceBound_natCast, hlen,
    Nat.min_eq_left (le_of_lt hlt)]

theorem getBatch_chunk (s : VectorSequence α) (idx : Nat)
    (hB : 0 < s.batch_size)
    (hlen : s.shuffled.length = s.samples_number)
    (h : idx < s.steps_per_epoch) :
    s.getBatch idx =
      Except.ok ((s.shuffled.drop (idx * s.batch_size)).take s.batch_size) := by
  rw [getBatch_valid s idx hB hlen h]
  congr 1
  rw [List.drop_take]
  have hsucc : (idx + 1) * s.batch_size = idx * s.batch_size + s.batch_size := by
    ring
  rcases le_or_lt ((idx + 1) * s.batch_size) s.samples_number with hle | hlt2
  · rw [Nat.min_eq_left hle]
    congr 1
    omega
  · rw [Nat.min_eq_right (le_of_lt hlt2)]
    have hlen2 : (s.shuffled.drop (idx * s.batch_size)).length =
        s.samples_number - idx * s.batch_size := by
      rw [List.length_drop, hlen]
    rw [List.take_of_length_le (le_of_eq hlen2),
      List.take_of_length_le (by rw [hlen2]; omega)]

end VectorSequence

/-- Covering `xs` by consecutive chunks of size `B`: the concatenation of
the `ceil(len/B)` chunks is `xs` itself. -/
theorem flatten_chunks {α : Type} (B : Nat) (hB : 0 < B) :
    ∀ (n : Nat) (xs : List α), xs.length ≤ n →
      ((List.range ((xs.length + B - 1) / B)).map
          (fun i => (xs.drop (i * B)).take B)).flatten = xs := by
  intro n
  induction n with
  | zero =>
    intro xs hlen
    have hnil : xs = [] := List.eq_nil_of_length_eq_zero (by omega)
    subst hnil
    rw [show (([] : List α).length + B - 1) / B = 0 from by
      simp only [List.length_nil]
      exact Nat.div_eq_of_lt (by omega)]
    rfl
  | succ n ih =>
    intro xs hlen
    rcases Nat.eq_zero_or_pos xs.length with h0 | hpos
    · have hnil : xs = [] := List.eq_nil_of_length_eq_zero h0
      subst hnil
      rw [show (([] : List α).length + B - 1) / B = 0 from by
        simp only [List.length_nil]
        exact Nat.div_eq_of_lt (by omega)]
      rfl
    · have hsteps : (xs.length + B - 1) / B =
          ((xs.drop B).length + B - 1) / B + 1 := by
        rw [List.length_drop]
        rcases le_or_lt B xs.length with hle | hlt
        · rw [show xs.length + B - 1 = ((xs.length - B) + B - 1) + B from by
              omega,
            Nat.add_div_right _ hB]
        · rw [show xs.length - B = 0 from by omega,
            show xs.length + B - 1 = (xs.length - 1) + B from by omega,
            Nat.add_div_right _ hB,
            Nat.div_eq_of_lt (show xs.length - 1 < B from by omega),
            show (0 : Nat) + B - 1 = B - 1 from by omega,
            Nat.div_eq_of_lt (show B - 1 < B from by omega)]
      rw [hsteps, List.range_succ_eq_map, List.map_cons, List.flatten_cons,
        List.map_map]
      rw [show (0 : Nat) * B = 0 from Nat.zero_mul B, List.drop_zero]
      have htail :
          List.map ((fun i => (xs.drop (i * B)).take B) ∘ Nat.succ)
              (List.range (((xs.drop B).length + B - 1) / B)) =
            List.map (fun i => ((xs.drop B).drop (i * B)).take B)
              (List.range (((xs.drop B).length + B - 1) / B)) := by
        apply List.map_congr_left
        intro i _
        show (xs.drop (Nat.succ i * B)).take B = _
        rw [List.drop_drop]
        congr 2
        have := Nat.succ_mul i B
        omega
      rw [htail, ih (xs.drop B) (by rw [List.length_drop]; omega),
        List.take_append_drop]

/-! ## Claim theorems -/

open VectorSequence

/-- C1: for every dataset vector and every number `k` of `on_epoch_end`
calls (including `k = 0`, i.e. immediately after construction), the current
shuffled view is a permutation of the original dataset vector: same
multiset of elements and same length. -/
theorem claim_c1 {α : Type} (vector : List α) (B seed e k : Nat) :
    (((VectorSequence.init vector B seed e).runEpochs k).shuffled).Perm vector ∧
    (((VectorSequence.init vector B seed e).runEpochs k).shuffled).length =
      vector.length := by
  have hperm :
      (((VectorSequence.init vector B seed e).runEpochs k).shuffled).Perm vector := by
    cases k with
    | zero => exact List.Perm.refl _
    | succ j =>
      rw [runEpochs_shuffled _ _ (by omega)]
      exact fancyIndex_perm _ _ (shuffleIndices_perm _ _)
  exact ⟨hperm, hperm.length_eq⟩

/-- C4: every `on_epoch_end` call first increments the elapsed-epoch
counter and then seeds the permutation generator with
`seed + elapsed_epochs` using the post-increment value; concretely, a
batcher with base seed 42 uses permutation seed 43 on its first
`on_epoch_end`, a fresh batcher with seed 43 and elapsed epochs 0 uses
permutation seed 44, and the two resulting first-epoch shuffled views
differ (shown for the N = 9, B = 3 scenario). -/
theorem claim_c4 {α : Type} :
    (∀ (s : VectorSequence α),
        s.on_epoch_end.elapsed_epochs = s.elapsed_epochs + 1 ∧
        s.on_epoch_end.shuffled =
          fancyIndex s.vector
            (shuffleIndices (s.seed + (s.elapsed_epochs + 1)) s.samples_number)) ∧
    (VectorSequence.init (List.range 9) 3 42 0).on_epoch_end.shuffled =
      fancyIndex (List.range 9) (shuffleIndices 43 9) ∧
    (VectorSequence.init (List.range 9) 3 43 0).on_epoch_end.shuffled =
      fancyIndex (List.range 9) (shuffleIndices 44 9) ∧
    (VectorSequence.init (List.range 9) 3 42 0).on_epoch_end.shuffled ≠
      (VectorSequence.init (List.range 9) 3 43 0).on_epoch_end.shuffled :=
  ⟨fun _ => ⟨rfl, rfl⟩, by decide, by decide, by decide⟩

/-- C5: for a fixed dataset vector, fixed base seed `S` and fixed reached
elapsed-epoch value, two independently constructed batchers that both
reach that value through at least one `on_epoch_end` call hold identical
shuffled views: the shuffle depends only on the vector, `S` and the
elapsed-epoch count. -/
theorem claim_c5 {α : Type} (vec : List α) (B S e1 e2 k1 k2 : Nat)
    (h1 : 1 ≤ k1) (h2 : 1 ≤ k2) (h : e1 + k1 = e2 + k2) :
    ((VectorSequence.init vec B S e1).runEpochs k1).shuffled =
      ((VectorSequence.init vec B S e2).runEpochs k2).shuffled := by
  rw [runEpochs_shuffled _ _ h1, runEpochs_shuffled _ _ h2]
  show fancyIndex vec (shuffleIndices (S + e1 + k1) vec.length) =
    fancyIndex vec (shuffleIndices (S + e2 + k2) vec.length)
  rw [show S + e1 + k1 = S + e2 + k2 from by omega]

/-- Witness for C5 at a concrete instance: the batcher seeded at epoch 0
run for two epochs and the batcher seeded at epoch 1 run for one epoch
agree. -/
theorem claim_c5_witness :
    1 ≤ 2 ∧ 1 ≤ 1 ∧ 0 + 2 = 1 + 1 ∧
    ((VectorSequence.init [10, 11, 12, 13] 2 5 0).runEpochs 2).shuffled =
      ((VectorSequence.init [10, 11, 12, 13] 2 5 1).runEpochs 1).shuffled :=
  ⟨by decide, by decide, by decide,
    claim_c5 [10, 11, 12, 13] 2 5 0 1 2 1 (by decide) (by decide) (by decide)⟩

/-- C7: after construction and before the first `on_epoch_end` call the
shuffled view equals the dataset vector in original order, even for a
nonzero initial elapsed-epoch count; for N = 10, B = 3 the batcher has 4
steps per epoch and batch 0 is `[0, 1, 2]` in identity order. -/
theorem claim_c7 {α : Type} :
    (∀ (vec : List α) (B S e : Nat),
        (VectorSequence.init vec B S e).shuffled = vec) ∧
    (VectorSequence.init (List.range 10) 3 42 7).shuffled = List.range 10 ∧
    (VectorSequence.init (List.range 10) 3 42 0).steps_per_epoch = 4 ∧
    (VectorSequence.init (List.range 10) 3 42 0).getBatch 0 =
      Except.ok [0, 1, 2] :=
  ⟨fun _ _ _ _ => rfl, by decide, by decide, by rfl⟩

/-- C8: the shuffled view after the last `on_epoch_end` call depends only
on the dataset vector and the sum `base_seed + elapsed_epochs`
(post-increment), not on the history of earlier shuffles: two batchers
over the same vector whose sums agree after their respective last calls
hold identical views. -/
theorem claim_c8 {α : Type} (vec : List α) (B S1 S2 e1 e2 k1 k2 : Nat)
    (h1 : 1 ≤ k1) (h2 : 1 ≤ k2) (h : S1 + e1 + k1 = S2 + e2 + k2) :
    ((VectorSequence.init vec B S1 e1).runEpochs k1).shuffled =
      ((VectorSequence.init vec B S2 e2).runEpochs k2).shuffled := by
  rw [runEpochs_shuffled _ _ h1, runEpochs_shuffled _ _ h2]
  show fancyIndex vec (shuffleIndices (S1 + e1 + k1) vec.length) =
    fancyIndex vec (shuffleIndices (S2 + e2 + k2) vec.length)
  rw [h]

/-- Witness for C8 at a concrete instance: seed 42 after one epoch and
seed 41 after two epochs both use permutation seed 43 and agree. -/
theorem claim_c8_witness :
    1 ≤ 1 ∧ 1 ≤ 2 ∧ 42 + 0 + 1 = 41 + 0 + 2 ∧
    ((VectorSequence.init [7, 8, 9] 2 42 0).runEpochs 1).shuffled =
      ((VectorSequence.init [7, 8, 9] 2 41 0).runEpochs 2).shuffled :=
  ⟨by decide, by decide, by decide,
    claim_c8 [7, 8, 9] 2 42 41 0 0 1 2 (by decide) (by decide) (by decide)⟩

/-- C9: `__getitem__` never modifies the state (the returned state equals
the input state), and `on_epoch_end` leaves the dataset vector, the base
seed and the batch size unchanged, modifying only the shuffled view and
the elapsed-epoch counter. -/
theorem claim_c9 {α : Type} (s : VectorSequence α) (idx : Int) :
    (s.getitem idx).2 = s ∧
    s.on_epoch_end.vector = s.vector ∧
    s.on_epoch_end.seed = s.seed ∧
    s.on_epoch_end.batch_size = s.batch_size := by
  refine ⟨?_, rfl, rfl, rfl⟩
  by_cases h : (s.steps_per_epoch : Int) ≤ idx <;> simp [VectorSequence.getitem, h]

/-- C10: for an empty dataset vector every operation is total: the index
permutation is empty, `on_epoch_end` leaves the shuffled view empty,
`steps_per_epoch` is 0, and `get_batch(idx)` returns the out-of-range
error for every `idx ≥ 0`, both before and after `on_epoch_end`. -/
theorem claim_c10 {α : Type} (B S e : Nat) (idx : Int) (hidx : 0 ≤ idx) :
    shuffleIndices (S + (e + 1)) 0 = [] ∧
    ((VectorSequence.init ([] : List α) B S e).on_epoch_end).shuffled = [] ∧
    (VectorSequence.init ([] : List α) B S e).steps_per_epoch = 0 ∧
    (VectorSequence.init ([] : List α) B S e).getBatch idx =
      Except.error (idx, 0) ∧
    ((VectorSequence.init ([] : List α) B S e).on_epoch_end).getBatch idx =
      Except.error (idx, 0) := by
  have hsteps : (VectorSequence.init ([] : List α) B S e).steps_per_epoch = 0 := by
    show (([] : List α).length + B - 1) / B = 0
    rcases Nat.eq_zero_or_pos B with hB | hB
    · simp [hB]
    · simp only [List.length_nil]
      exact Nat.div_eq_of_lt (by omega)
  have hsteps2 :
      ((VectorSequence.init ([] : List α) B S e).on_epoch_end).steps_per_epoch = 0 :=
    hsteps
  refine ⟨rfl, rfl, hsteps, ?_, ?_⟩
  · show ((VectorSequence.init ([] : List α) B S e).getitem idx).1 = _
    rw [VectorSequence.getitem, if_pos (by rw [hsteps]; exact_mod_cast hidx),
      hsteps]
  · show (((VectorSequence.init ([] : List α) B S e).on_epoch_end).getitem idx).1 = _
    rw [VectorSequence.getitem, if_pos (by rw [hsteps2]; exact_mod_cast hidx),
      hsteps2]

/-- Witness for C10 at a concrete instance: the empty batcher with
batch size 3, seed 7, initial epoch 0, queried at index 0. -/
theorem claim_c10_witness :
    (0 : Int) ≤ 0 ∧
    (shuffleIndices (7 + (0 + 1)) 0 = [] ∧
      ((VectorSequence.init ([] : List Nat) 3 7 0).on_epoch_end).shuffled = [] ∧
      (VectorSequence.init ([] : List Nat) 3 7 0).steps_per_epoch = 0 ∧
      (VectorSequence.init ([] : List Nat) 3 7 0).getBatch 0 =
        Except.error (0, 0) ∧
      ((VectorSequence.init ([] : List Nat) 3 7 0).on_epoch_end).getBatch 0 =
        Except.error (0, 0)) :=
  ⟨by decide, claim_c10 3 7 0 0 (by decide)⟩

/-- C2: for every valid batch index `idx < steps_per_epoch`, `get_batch`
returns exactly the contiguous slice of the current shuffled view from
`idx * B` to `min((idx + 1) * B, N)`; the batch is never empty, every
batch before the last has exactly `B` elements, and the last batch has
`N mod B` elements when `B` does not divide `N`. -/
theorem claim_c2 {α : Type} (s : VectorSequence α) (idx : Nat)
    (hB : 0 < s.batch_size)
    (hlen : s.shuffled.length = s.samples_number)
    (hidx : idx < s.steps_per_epoch) :
    ∃ b : List α,
      s.getBatch idx = Except.ok b ∧
      b = (s.shuffled.take
            (min ((idx + 1) * s.batch_size) s.samples_number)).drop
          (idx * s.batch_size) ∧
      0 < b.length ∧
      (idx + 1 < s.steps_per_epoch → b.length = s.batch_size) ∧
      (idx + 1 = s.steps_per_epoch → ¬ s.batch_size ∣ s.samples_number →
        b.length = s.samples_number % s.batch_size) := by
  have hlt : idx * s.batch_size < s.samples_number :=
    mul_lt_of_lt_steps s idx hB hidx
  have hsucc : (idx + 1) * s.batch_size =
      idx * s.batch_size + s.batch_size := by ring
  have hblen :
      ((s.shuffled.take
          (min ((idx + 1) * s.batch_size) s.samples_number)).drop
        (idx * s.batch_size)).length =
        min ((idx + 1) * s.batch_size) s.samples_number -
          idx * s.batch_size := by
    rw [List.length_drop, List.length_take, hlen]
    omega
  refine ⟨_, getBatch_valid s idx hB hlen hidx, rfl, ?_, ?_, ?_⟩
  · rw [hblen]
    omega
  · intro h2
    have h3 : (idx + 1) * s.batch_size < s.samples_number :=
      mul_lt_of_lt_steps s (idx + 1) hB h2
    rw [hblen]
    omega
  · intro he hdvd
    have hub : s.samples_number ≤ (idx + 1) * s.batch_size := by
      have hdm := Nat.div_add_mod (s.samples_number + s.batch_size - 1)
        s.batch_size
      have hrem : (s.samples_number + s.batch_size - 1) % s.batch_size <
          s.batch_size := Nat.mod_lt _ hB
      have hdiv : (s.samples_number + s.batch_size - 1) / s.batch_size =
          idx + 1 := he.symm
      rw [hdiv] at hdm
      have hmul : s.batch_size * (idx + 1) =
          idx * s.batch_size + s.batch_size := by ring
      omega
    have hne : s.samples_number ≠ (idx + 1) * s.batch_size := by
      intro hcontra
      exact hdvd ⟨idx + 1, hcontra.trans (by ring)⟩
    have hrlt : s.samples_number - idx * s.batch_size < s.batch_size := by
      omega
    have hNeq : s.samples_number =
        (s.samples_number - idx * s.batch_size) + s.batch_size * idx := by
      have hc : s.batch_size * idx = idx * s.batch_size := by ring
      omega
    have hmod : s.samples_number % s.batch_size =
        s.samples_number - idx * s.batch_size := by
      conv_lhs => rw [hNeq]
      rw [Nat.add_mul_mod_self_left]
      exact Nat.mod_eq_of_lt hrlt
    rw [hblen, hmod]
    omega

/-- Witness for C2 at the `N = 10`, `B = 3` scenario, last batch index 3. -/
theorem claim_c2_witness :
    0 < (VectorSequence.init (List.range 10) 3 42 0).batch_size ∧
    (VectorSequence.init (List.range 10) 3 42 0).shuffled.length =
      (VectorSequence.init (List.range 10) 3 42 0).samples_number ∧
    3 < (VectorSequence.init (List.range 10) 3 42 0).steps_per_epoch ∧
    (∃ b : List Nat,
      (VectorSequence.init (List.range 10) 3 42 0).getBatch 3 =
        Except.ok b ∧
      b = ((VectorSequence.init (List.range 10) 3 42 0).shuffled.take
            (min ((3 + 1) * (VectorSequence.init (List.range 10) 3 42 0).batch_size)
              (VectorSequence.init (List.range 10) 3 42 0).samples_number)).drop
          (3 * (VectorSequence.init (List.range 10) 3 42 0).batch_size) ∧
      0 < b.length ∧
      (3 + 1 < (VectorSequence.init (List.range 10) 3 42 0).steps_per_epoch →
        b.length = (VectorSequence.init (List.range 10) 3 42 0).batch_size) ∧
      (3 + 1 = (VectorSequence.init (List.range 10) 3 42 0).steps_per_epoch →
        ¬ (VectorSequence.init (List.range 10) 3 42 0).batch_size ∣
            (VectorSequence.init (List.range 10) 3 42 0).samples_number →
        b.length = (VectorSequence.init (List.range 10) 3 42 0).samples_number %
          (VectorSequence.init (List.range 10) 3 42 0).batch_size)) :=
  ⟨by decide, by decide, by decide,
    claim_c2 (VectorSequence.init (List.range 10) 3 42 0) 3
      (by decide) (by decide) (by decide)⟩

/-- Counterexample to C3 as stated: `get_batch(-1)` does NOT fail.  The
guard in `__getitem__` only checks `idx >= steps_per_epoch`, so a negative
index falls through to the Python slice, which for `idx = -1` yields an
empty (non-error) result. -/
theorem claim_c3_counterexample :
    (VectorSequence.init [0, 1, 2] 2 42 0).getBatch (-1) =
      Except.ok [] := by
  rfl

/-- C3 (amended): `get_batch(idx)` fails exactly when
`idx ≥ steps_per_epoch`, and the error reports both the offending index
and the current `steps_per_epoch` value; every index below
`steps_per_epoch` — including negative ones — does not fail and returns a
(possibly empty) slice. -/
theorem claim_c3_amended {α : Type} (s : VectorSequence α) (idx : Int) :
    ((s.steps_per_epoch : Int) ≤ idx →
      s.getBatch idx = Except.error (idx, s.steps_per_epoch)) ∧
    (idx < (s.steps_per_epoch : Int) →
      ∃ b, s.getBatch idx = Except.ok b) := by
  constructor
  · intro h
    show (s.getitem idx).1 = _
    rw [VectorSequence.getitem, if_pos h]
  · intro h
    show ∃ b, (s.getitem idx).1 = Except.ok b
    rw [VectorSequence.getitem, if_neg (not_le.mpr h)]
    exact ⟨_, rfl⟩

/-- Witness for C3 (amended) at concrete inputs: index 5 is out of range
for a 2-step batcher and fails with both values reported; index -1 is
below the range and succeeds. -/
theorem claim_c3_amended_witness :
    ((((VectorSequence.init [0, 1, 2] 2 42 0).steps_per_epoch : Int) ≤ 5 →
      (VectorSequence.init [0, 1, 2] 2 42 0).getBatch 5 =
        Except.error (5, (VectorSequence.init [0, 1, 2] 2 42 0).steps_per_epoch)) ∧
    (5 < ((VectorSequence.init [0, 1, 2] 2 42 0).steps_per_epoch : Int) →
      ∃ b, (VectorSequence.init [0, 1, 2] 2 42 0).getBatch 5 =
        Except.ok b)) ∧
    ((((VectorSequence.init [0, 1, 2] 2 42 0).steps_per_epoch : Int) ≤ -1 →
      (VectorSequence.init [0, 1, 2] 2 42 0).getBatch (-1) =
        Except.error (-1, (VectorSequence.init [0, 1, 2] 2 42 0).steps_per_epoch)) ∧
    (-1 < ((VectorSequence.init [0, 1, 2] 2 42 0).steps_per_epoch : Int) →
      ∃ b, (VectorSequence.init [0, 1, 2] 2 42 0).getBatch (-1) =
        Except.ok b)) :=
  ⟨claim_c3_amended (VectorSequence.init [0, 1, 2] 2 42 0) 5,
   claim_c3_amended (VectorSequence.init [0, 1, 2] 2 42 0) (-1)⟩

/-- C6: concatenating `get_batch(0), ..., get_batch(steps_per_epoch - 1)`
in index order reconstructs the entire current shuffled view exactly —
no gaps and no overlaps. -/
theorem claim_c6 {α : Type} (s : VectorSequence α)
    (hB : 0 < s.batch_size)
    (hlen : s.shuffled.length = s.samples_number) :
    ((List.range s.steps_per_epoch).map s.batchOrEmpty).flatten =
      s.shuffled := by
  have hmap : (List.range s.steps_per_epoch).map s.batchOrEmpty =
      (List.range s.steps_per_epoch).map
        (fun i => (s.shuffled.drop (i * s.batch_size)).take s.batch_size) := by
    apply List.map_congr_left
    intro i hi
    rw [List.mem_range] at hi
    show VectorSequence.batchOrEmpty s i = _
    rw [VectorSequence.batchOrEmpty, getBatch_chunk s i hB hlen hi]
  rw [hmap]
  rw [show s.steps_per_epoch =
        (s.shuffled.length + s.batch_size - 1) / s.batch_size from by
      show (s.samples_number + s.batch_size - 1) / s.batch_size = _
      rw [hlen]]
  exact flatten_chunks s.batch_size hB s.shuffled.length s.shuffled
    (le_refl _)

/-- Witness for C6 at the `N = 10`, `B = 3` scenario. -/
theorem claim_c6_witness :
    0 < (VectorSequence.init (List.range 10) 3 42 0).batch_size ∧
    (VectorSequence.init (List.range 10) 3 42 0).shuffled.length =
      (VectorSequence.init (List.range 10) 3 42 0).samples_number ∧
    ((List.range (VectorSequence.init (List.range 10) 3 42 0).steps_per_epoch).map
        (VectorSequence.init (List.range 10) 3 42 0).batchOrEmpty).flatten =
      (VectorSequence.init (List.range 10) 3 42 0).shuffled :=
  ⟨by decide, by decide,
    claim_c6 (VectorSequence.init (List.range 10) 3 42 0)
      (by decide) (by decide)⟩

end VectorSeq
